import Mathlib

/-!
Verification development for the connection/reactor subsystem of the
`circ` IRC client (`src/libirc/irc.c`).

The C code is shallowly embedded: the global `conns` array becomes a list
of optional connection records, pointer identity of `irc_server` values
becomes a numeric identity key, the linked-list message queues become
`List String`, the byte transport becomes a function `Nat → Byte` giving
the successive bytes `recv` delivers, and the external parse/serialize
hooks become function parameters.  Fallible or undefined behaviour
(a NULL dereference) is made explicit in result types.
-/

namespace Circ

/-- A transport byte.  C `char` values are embedded as `Nat` (0..255). -/
abbrev Byte := Nat

/-- IRC_MESSAGE_SIZE from irc.c: the 8192-byte line buffer. -/
def IRC_MESSAGE_SIZE : Nat := 8192

/-- MAX_CONNECTIONS from irc.c: the connection cap (the backing array has
one extra, always-NULL slot: `conns[MAX_CONNECTIONS + 1]`). -/
def MAX_CONNECTIONS : Nat := 10

/-- A parsed IRC message (`irc_msg`): only the fields the subsystem under
study reads (the command token and the parameter list). -/
structure irc_msg where
  command : String
  params : List String
deriving DecidableEq

/-- An `irc_connection` record.  `server` is the identity of the
`irc_server` the connection points at (pointer identity in C).  The two
linked-list queues are lists, head = oldest entry.  `freed` records that
`free(conn)` has run while the record is still reachable from the
registry (the C code leaves the dangling pointer in `conns`).
`ev_is_running` is not assigned by `create_irc_connection` in the C; the
embedding starts it at `false`. -/
structure irc_connection where
  server : Nat
  socket : Int
  ev_is_running : Bool
  read_queue : List String
  write_queue : List String
  freed : Bool
deriving DecidableEq

/-- The global `conns` array: `MAX_CONNECTIONS + 1` slots, `none` = NULL. -/
abbrev Conns := List (Option irc_connection)

/-- Initial contents of the static array `conns`: all NULL. -/
def initConns : Conns := List.replicate (MAX_CONNECTIONS + 1) none

/-- get_irc_server_connection (irc.c:538-548): scan `conns` from index 0,
stopping at the first NULL slot, and return the first connection whose
`server` pointer equals `s`. -/
def get_irc_server_connection : Conns → Nat → Option irc_connection
  | [], _ => none
  | none :: _, _ => none
  | some c :: rest, s =>
      if c.server = s then some c else get_irc_server_connection rest s

/-- Mutation through the pointer returned by `get_irc_server_connection`:
apply `f` to the first matching connection before the first NULL slot,
leaving everything else in place. -/
def updateConn : Conns → Nat → (irc_connection → irc_connection) → Conns
  | [], _, _ => []
  | none :: rest, _, _ => none :: rest
  | some c :: rest, s, f =>
      if c.server = s then some (f c) :: rest
      else some c :: updateConn rest s f

/-- The scan inside make_irc_connection_entry (irc.c:520-532): walk the
first `n` slots and store `c` in the first NULL one; `none` means every
scanned slot was occupied. -/
def placeFirst (c : irc_connection) : Nat → Conns → Option Conns
  | 0, _ => none
  | _ + 1, [] => none
  | _ + 1, none :: rest => some (some c :: rest)
  | n + 1, some x :: rest => Option.map (fun r => some x :: r) (placeFirst c n rest)

/-- make_irc_connection_entry (irc.c:520-532): store `c` in the first free
slot among indices `0..MAX_CONNECTIONS-1`; return value 0 on success,
-1 when all scanned slots are occupied (the array is then unchanged). -/
def make_irc_connection_entry (cs : Conns) (c : irc_connection) : Conns × Int :=
  match placeFirst c MAX_CONNECTIONS cs with
  | some cs' => (cs', 0)
  | none => (cs, -1)

/-- connections_cap_reached (irc.c:588-592): the C tests
`conns[MAX_CONNECTIONS - 1] != NULL`, i.e. whether slot 9 is occupied. -/
def connections_cap_reached (cs : Conns) : Bool :=
  match cs.get? (MAX_CONNECTIONS - 1) with
  | some (some _) => true
  | _ => false

/-- server_connected (irc.c:581-585). -/
def server_connected (cs : Conns) (s : Nat) : Bool :=
  (get_irc_server_connection cs s).isSome

/-- create_irc_connection (irc.c:502-517): fresh record with empty queues
(malloc is assumed to succeed; on failure the C caller aborts the
process). -/
def create_irc_connection (s : Nat) (sock : Int) : irc_connection :=
  { server := s, socket := sock, ev_is_running := false,
    read_queue := [], write_queue := [], freed := false }

/-- Outcome of irc_server_connect.  In C both error cases return -1 after
a log line; `abortNoSocket` stands for the `err(1, ...)` process abort
taken when irc_create_socket hands back -1. -/
inductive ConnectResult
  | ok
  | errAlreadyConnected
  | errTooMany
  | abortNoSocket
deriving DecidableEq

/-- irc_server_connect (irc.c:144-175) followed by setup_irc_connection
(irc.c:448-470).  `sockResult` is the value irc_create_socket would
return; the returned `Bool` records whether socket creation was reached.
The TLS handshake, setnonblock and verify_socket steps either succeed or
abort the whole process in C, so they have no further effect on the
registry state; like the C, the return value of
make_irc_connection_entry is ignored. -/
def irc_server_connect (cs : Conns) (s : Nat) (sockResult : Int) :
    ConnectResult × Conns × Bool :=
  if server_connected cs s then (ConnectResult.errAlreadyConnected, cs, false)
  else if connections_cap_reached cs then (ConnectResult.errTooMany, cs, false)
  else if sockResult = -1 then (ConnectResult.abortNoSocket, cs, true)
  else
    let c := create_irc_connection s sockResult
    (ConnectResult.ok, (make_irc_connection_entry cs c).1, true)

/-- Registry contents after a connect attempt. -/
def connectPost (cs : Conns) (s : Nat) (sock : Int) : Conns :=
  (irc_server_connect cs s sock).2.1

/-- The tail-append walk shared by irc_push_string (irc.c:359-379) and the
read-callback enqueue (irc.c:219-233): a new node is linked at the end
of the list (or becomes the head when the queue is empty). -/
def irc_push_string_q : List String → String → List String
  | [], str => [str]
  | m :: rest, str => m :: irc_push_string_q rest str

/-- Result of irc_push_string: the C dereferences the connection pointer
without a NULL check, so a missing connection is a NULL dereference. -/
inductive PushResult
  | ok (cs : Conns)
  | nullDeref
deriving DecidableEq

/-- irc_push_string (irc.c:359-379): look the connection up, then
immediately lock `c->write_queue_mtx` and append.  Unlike irc_read_bytes
/ irc_write_bytes / irc_read_message there is no `c == NULL` guard, so
when no connection is registered for `s` the lock acquisition
dereferences NULL (`PushResult.nullDeref`). -/
def irc_push_string (cs : Conns) (s : Nat) (str : String) : PushResult :=
  match get_irc_server_connection cs s with
  | none => PushResult.nullDeref
  | some _ => PushResult.ok (updateConn cs s
      (fun c => { c with write_queue := irc_push_string_q c.write_queue str }))

/-- irc_push_message (irc.c:342-357): serialize (external) then push. -/
def irc_push_message (serialize : irc_msg → String) (cs : Conns) (s : Nat)
    (message : irc_msg) : PushResult :=
  irc_push_string cs s (serialize message)

/-- Registry contents after irc_push_string (unchanged on the NULL-deref
path, which in C crashes). -/
def pushPost (cs : Conns) (s : Nat) (str : String) : Conns :=
  match irc_push_string cs s str with
  | PushResult.ok cs' => cs'
  | PushResult.nullDeref => cs

/-- irc_process_write_message_queue (irc.c:260-276): repeatedly take the
head entry, write its bytes to the socket, free it, and continue until
the queue is empty.  The result lists the irc_write_bytes payloads in
the order they are written; the queue is empty afterwards. -/
def irc_process_write_message_queue : List String → List String
  | [] => []
  | m :: rest => m :: irc_process_write_message_queue rest

/-- One dispatch call made by handle_message: exec_hooks (server, key, msg). -/
structure DispatchCall where
  server : Nat
  key : String
  msg : irc_msg
deriving DecidableEq

/-- handle_message (irc.c:278-296).  `parse` stands for the external
ircmsg_parse (returning `none` exactly when the C call returns 0).  The
result is the list of exec_hooks calls in order, paired with whether the
parse-error log line was emitted.  The function mutates no connection
state and never aborts. -/
def handle_message (parse : String → Option irc_msg) (server : Nat)
    (message : String) : List DispatchCall × Bool :=
  if message.length = 0 then ([], false)
  else
    match parse message with
    | none => ([], true)
    | some m => ([⟨server, m.command, m⟩, ⟨server, "*", m⟩], false)

/-- Observable socket-level events during teardown. -/
inductive NetEvent
  | wrote (fd : Int) (line : String)
  | closed (fd : Int)
deriving DecidableEq

/-- Whether an event is a socket write. -/
def NetEvent.isWrote : NetEvent → Bool
  | NetEvent.wrote _ _ => true
  | NetEvent.closed _ => false

/-- quit_irc_connection (irc.c:563-578): look the connection up, enqueue
the serialized QUIT line, clear `ev_is_running`, release the TLS state,
`close` the socket, `free` the connection.  The returned event list
holds the socket-level actions in program order: the only one is the
close - no write and no drain of the write queue happens here.  The
registry slot is not cleared.  When the lookup misses, the C
dereferences NULL (`none`). -/
def quit_irc_connection (serialize : irc_msg → String) (cs : Conns) (s : Nat) :
    Option (Conns × List NetEvent) :=
  match get_irc_server_connection cs s with
  | none => none
  | some conn =>
      let quit_msg : irc_msg := ⟨"QUIT", ["go i must now"]⟩
      let cs1 := pushPost cs s (serialize quit_msg)
      let cs2 := updateConn cs1 s (fun c => { c with ev_is_running := false })
      let cs3 := updateConn cs2 s (fun c => { c with freed := true })
      some (cs3, [NetEvent.closed conn.socket])

/-- Registry contents after quit_irc_connection. -/
def quitPost (serialize : irc_msg → String) (cs : Conns) (s : Nat) : Conns :=
  match quit_irc_connection serialize cs s with
  | some r => r.1
  | none => cs

/-- Socket-level events emitted by quit_irc_connection. -/
def quitEvents (serialize : irc_msg → String) (cs : Conns) (s : Nat) :
    List NetEvent :=
  match quit_irc_connection serialize cs s with
  | some r => r.2
  | none => []

/-- The byte the read loop of irc_read_message sees at buffer index `k`.
`acc` holds the bytes already stored at indices `0..acc.length-1`; the
loop also reads the two cells just before the buffer (`buf[-2]` and
`buf[-1]`), whose contents `j2` and `j1` are whatever happens to sit
there in memory. -/
def bufAt (j2 j1 : Byte) (acc : List Byte) (k : Int) : Byte :=
  if k = -2 then j2
  else if k = -1 then j1
  else acc.getD k.toNat 0

/-- The `for` loop of irc_read_message (irc.c:309-313): with `i`
bytes stored, continue while `buf[i-2] != '\r'` and `buf[i-1] != '\n'`
and `i < IRC_MESSAGE_SIZE - 1`, each iteration reading one byte from the
transport into `buf[i]`.  `stream n` is the byte the `n`-th
single-byte `recv` delivers; the fuel argument only bounds the
recursion and is always at least the remaining loop capacity. -/
def readLoop (stream : Nat → Byte) (j2 j1 : Byte) : Nat → List Byte → List Byte
  | 0, acc => acc
  | fuel + 1, acc =>
      if bufAt j2 j1 acc ((acc.length : Int) - 2) ≠ 13 ∧
         bufAt j2 j1 acc ((acc.length : Int) - 1) ≠ 10 ∧
         acc.length < IRC_MESSAGE_SIZE - 1 then
        readLoop stream j2 j1 fuel (acc ++ [stream acc.length])
      else acc

/-- irc_read_message (irc.c:299-319) on a connection that exists: run the
read loop on a zeroed buffer and return the stored bytes together with
the returned count `i` (the C then writes the NUL terminators). -/
def irc_read_message (stream : Nat → Byte) (j2 j1 : Byte) : List Byte × Nat :=
  (readLoop stream j2 j1 (IRC_MESSAGE_SIZE - 1) [],
   (readLoop stream j2 j1 (IRC_MESSAGE_SIZE - 1) []).length)

/-- The stopping condition of the read loop at index `k` of the final
buffer: the byte two cells back is `'\r'` or the byte one cell back is
`'\n'`. -/
def stopCond (j2 j1 : Byte) (l : List Byte) (k : Nat) : Prop :=
  bufAt j2 j1 l ((k : Int) - 2) = 13 ∨ bufAt j2 j1 l ((k : Int) - 1) = 10

instance stopCondDec (j2 j1 : Byte) (l : List Byte) (k : Nat) :
    Decidable (stopCond j2 j1 l k) := by
  unfold stopCond; infer_instance

/-- Whether a byte list contains the two-byte terminator `"\r\n"`. -/
def hasCRLF : List Byte → Bool
  | 13 :: 10 :: _ => true
  | _ :: rest => hasCRLF rest
  | [] => false

/-- The buffer indices the loop condition of irc_read_message reads, in
evaluation order, honouring C's short-circuit `&&`: `buf[i-2]` is read
on every evaluation; `buf[i-1]` only when `buf[i-2] != '\r'`; the size
comparison reads no buffer cell. -/
def readLoopAccesses (stream : Nat → Byte) (j2 j1 : Byte) :
    Nat → List Byte → List Int
  | 0, _ => []
  | fuel + 1, acc =>
      let i : Int := (acc.length : Int)
      if bufAt j2 j1 acc (i - 2) = 13 then [i - 2]
      else if bufAt j2 j1 acc (i - 1) = 10 then [i - 2, i - 1]
      else if acc.length < IRC_MESSAGE_SIZE - 1 then
        (i - 2) :: (i - 1) ::
          readLoopAccesses stream j2 j1 fuel (acc ++ [stream acc.length])
      else [i - 2, i - 1]

/-- All buffer indices the loop condition reads during one
irc_read_message call. -/
def irc_read_message_accesses (stream : Nat → Byte) (j2 j1 : Byte) :
    List Int :=
  readLoopAccesses stream j2 j1 (IRC_MESSAGE_SIZE - 1) []

/-- One candidate address from getaddrinfo, as irc_create_socket uses it:
the fd the `socket` call yields for it and whether `connect` (with a
clean errno afterwards) succeeds.  A failing `socket` call is not
modelled: the C `continue`s without advancing `ai` and retries the same
candidate. -/
structure Cand where
  fd : Int
  connectOk : Bool
deriving DecidableEq

/-- The candidate loop of irc_create_socket (irc.c:423-440).  `sock`
carries the value of the C variable `sock` entering the iteration
(initially -1); `errnoSet` is whether `errno` is nonzero at the test
`conn == -1 || errno` (it is reset to 0 after every failure, so only the
first iteration can see a stale nonzero value).  On failure the socket
is closed and the loop advances; when the list runs out the current
`sock` - the fd of the last, closed, attempt - is returned. -/
def createSocketLoop (errnoSet : Bool) (sock : Int) : List Cand → Int
  | [] => sock
  | c :: rest =>
      if c.connectOk ∧ errnoSet = false then c.fd
      else createSocketLoop false c.fd rest

/-- irc_create_socket (irc.c:407-445) after a successful getaddrinfo
(failure there exits the process): try the candidates in order and
return the C variable `sock` when the loop ends. -/
def irc_create_socket (errnoSet : Bool) (cands : List Cand) : Int :=
  createSocketLoop errnoSet (-1) cands

/-- Number of occupied registry slots. -/
def liveCount (cs : Conns) : Nat := cs.countP (fun o => o.isSome)

/-- Number of registry entries whose server pointer is `s`. -/
def countFor (cs : Conns) (s : Nat) : Nat :=
  cs.countP (fun o =>
    match o with
    | some c => c.server == s
    | none => false)

/-- Registry states reachable through the operations of irc.c: the
initial all-NULL array, connect attempts, quits, outbound pushes, the
read-callback enqueue, the two drains and the event loop setting the
running flag.  Only `irc_server_connect` (via
make_irc_connection_entry) ever writes a slot itself. -/
inductive Reachable : Conns → Prop
  | init : Reachable initConns
  | connect (s : Nat) (sock : Int) {cs : Conns} :
      Reachable cs → Reachable (connectPost cs s sock)
  | quitStep (serialize : irc_msg → String) (s : Nat) {cs : Conns} :
      Reachable cs → Reachable (quitPost serialize cs s)
  | pushStep (s : Nat) (str : String) {cs : Conns} :
      Reachable cs → Reachable (pushPost cs s str)
  | readEnq (s : Nat) (line : String) {cs : Conns} :
      Reachable cs →
      Reachable (updateConn cs s
        (fun c => { c with read_queue := irc_push_string_q c.read_queue line }))
  | drainWrite (s : Nat) {cs : Conns} :
      Reachable cs →
      Reachable (updateConn cs s (fun c => { c with write_queue := [] }))
  | drainRead (s : Nat) {cs : Conns} :
      Reachable cs →
      Reachable (updateConn cs s (fun c => { c with read_queue := [] }))
  | startLoop (s : Nat) {cs : Conns} :
      Reachable cs →
      Reachable (updateConn cs s (fun c => { c with ev_is_running := true }))

/-- Concrete serializer used to instantiate the external
ircmsg_serialize in concrete runs. -/
def ser0 : irc_msg → String := fun m => m.command

/-- Concrete parse oracle used to instantiate ircmsg_parse in witnesses. -/
def parse0 : String → Option irc_msg := fun line =>
  if line = "PING x" then some ⟨"PING", ["x"]⟩ else none

/-- Concrete transport: delivers 'a', then '\n', then 'b' forever. -/
def stream0 : Nat → Byte := fun k =>
  if k = 0 then 97 else if k = 1 then 10 else 98

/-- Registry with exactly one connection (server 0, socket 3). -/
def oneConns : Conns := connectPost initConns 0 3

/-- Registry after ten successful connects (servers 0..9): full. -/
def fullConns : Conns :=
  connectPost (connectPost (connectPost (connectPost (connectPost
    (connectPost (connectPost (connectPost (connectPost
      (connectPost initConns 0 3) 1 3) 2 3) 3 3) 4 3) 5 3) 6 3) 7 3) 8 3) 9 3

/-- Structural invariant of the registry array: the occupied slots form a
prefix, followed only by NULL slots, at most MAX_CONNECTIONS of the
MAX_CONNECTIONS + 1 slots are occupied, and the total length is fixed. -/
def Inv (cs : Conns) : Prop :=
  ∃ a b : Conns, cs = a ++ b ∧ (∀ x ∈ a, x.isSome = true) ∧
    (∀ x ∈ b, x = none) ∧ a.length ≤ MAX_CONNECTIONS ∧
    a.length + b.length = MAX_CONNECTIONS + 1

/-- Appending via the tail walk is list append. -/
theorem irc_push_string_q_eq_append (q : List String) (s : String) :
    irc_push_string_q q s = q ++ [s] := by
  induction q with
  | nil => rfl
  | cons m rest ih => simp [irc_push_string_q, ih]

/-- The drain emits exactly the queued entries, head first. -/
theorem irc_process_write_message_queue_eq (q : List String) :
    irc_process_write_message_queue q = q := by
  induction q with
  | nil => rfl
  | cons m rest ih => simp [irc_process_write_message_queue, ih]

/-- Folding a sequence of pushes over a starting queue appends them. -/
theorem foldl_push_eq_append (msgs q : List String) :
    msgs.foldl irc_push_string_q q = q ++ msgs := by
  induction msgs generalizing q with
  | nil => simp
  | cons m rest ih => simp [List.foldl, irc_push_string_q_eq_append, ih]

/-- C5: any sequence of enqueue calls on one message queue, drained once,
is observed entry by entry, each exactly once, in FIFO order: the drain
of the queue built by the pushes writes exactly the pushed lines in push
order. -/
theorem write_queue_fifo_drain (msgs : List String) :
    irc_process_write_message_queue (msgs.foldl irc_push_string_q []) = msgs := by
  rw [irc_process_write_message_queue_eq, foldl_push_eq_append, List.nil_append]

/-- C4: handle_message discards an empty line with no dispatch call;
logs and discards a line whose parse fails, again with no dispatch call
and without touching any connection state; and for a successfully parsed
message with command X makes exactly two dispatch calls, the first keyed
X and the second keyed the wildcard. -/
theorem handle_message_dispatch_cases (parse : String → Option irc_msg)
    (server : Nat) (message : String) :
    (message.length = 0 → handle_message parse server message = ([], false))
  ∧ (message.length ≠ 0 → parse message = none →
      handle_message parse server message = ([], true))
  ∧ (∀ m, message.length ≠ 0 → parse message = some m →
      handle_message parse server message =
        ([⟨server, m.command, m⟩, ⟨server, "*", m⟩], false)) := by
  refine ⟨fun h => by simp [handle_message, h],
          fun h hp => by simp [handle_message, h, hp],
          fun m h hp => by simp [handle_message, h, hp]⟩

/-- Witness for C4 at a concrete parse oracle and concrete lines. -/
theorem handle_message_dispatch_cases_witness :
    handle_message parse0 7 "" = ([], false)
  ∧ handle_message parse0 7 "junk" = ([], true)
  ∧ handle_message parse0 7 "PING x" =
      ([⟨7, "PING", ⟨"PING", ["x"]⟩⟩, ⟨7, "*", ⟨"PING", ["x"]⟩⟩], false) :=
  ⟨(handle_message_dispatch_cases parse0 7 "").1 (by decide),
   (handle_message_dispatch_cases parse0 7 "junk").2.1 (by decide) (by decide),
   (handle_message_dispatch_cases parse0 7 "PING x").2.2 ⟨"PING", ["x"]⟩
     (by decide) (by decide)⟩

/-- C7: a second connect attempt for a server that already has a live
connection (by identity) is rejected immediately: the result is the
already-connected error, socket creation is never reached, the registry
is unchanged, and it still holds exactly one entry for that server. -/
theorem duplicate_connect_rejected (cs : Conns) (s : Nat) (sock : Int)
    (h : server_connected cs s = true) (h1 : countFor cs s = 1) :
    (irc_server_connect cs s sock).1 = ConnectResult.errAlreadyConnected
  ∧ (irc_server_connect cs s sock).2.2 = false
  ∧ (irc_server_connect cs s sock).2.1 = cs
  ∧ countFor (irc_server_connect cs s sock).2.1 s = 1 := by
  have hc : irc_server_connect cs s sock =
      (ConnectResult.errAlreadyConnected, cs, false) := by
    simp [irc_server_connect, h]
  refine ⟨by rw [hc], by rw [hc], by rw [hc], by rw [hc]; exact h1⟩

/-- Witness for C7: a registry holding exactly the connection for server 0. -/
theorem duplicate_connect_rejected_witness :
    (irc_server_connect oneConns 0 5).1 = ConnectResult.errAlreadyConnected
  ∧ (irc_server_connect oneConns 0 5).2.2 = false
  ∧ (irc_server_connect oneConns 0 5).2.1 = oneConns
  ∧ countFor (irc_server_connect oneConns 0 5).2.1 0 = 1 :=
  duplicate_connect_rejected oneConns 0 5 (by decide) (by decide)

/-- C1 (code bug): quitting a live connection enqueues the QUIT line and
then closes the socket in the same call.  The only socket-level event
quit emits is the close - no write at all - and at the moment of the
close the serialized QUIT line is still sitting unsent in the write
queue: the final drain does not run before teardown. -/
theorem quit_closes_socket_before_flush :
    quitEvents ser0 oneConns 0 = [NetEvent.closed 3]
  ∧ (quitEvents ser0 oneConns 0).all (fun e => !NetEvent.isWrote e) = true
  ∧ (get_irc_server_connection (quitPost ser0 oneConns 0) 0).map
      irc_connection.write_queue = some ["QUIT"] := by
  decide

/-- C6 (code bug): after quit_irc_connection completes on server 0, the
registry still resolves that server: the slot is never cleared, so the
lookup still returns the (freed) connection and server_connected is
still true. -/
theorem quit_leaves_registry_entry :
    (quit_irc_connection ser0 oneConns 0).isSome = true
  ∧ server_connected (quitPost ser0 oneConns 0) 0 = true
  ∧ (get_irc_server_connection (quitPost ser0 oneConns 0) 0).isSome = true := by
  decide

/-- C8 (code bug): with a single resolved candidate whose socket call
yields fd 5 and whose connect fails, irc_create_socket returns 5 - the
fd of the socket it just closed - rather than -1; the caller's
`sock == -1` failure test cannot see the exhaustion.  -1 is returned
only when the candidate list is empty. -/
theorem create_socket_returns_closed_fd_on_exhaustion :
    irc_create_socket false [⟨5, false⟩] = 5
  ∧ (0 : Int) ≤ irc_create_socket false [⟨5, false⟩]
  ∧ irc_create_socket false [] = -1 := by
  decide

/-- C10 (code bug): pushing a string for a server with no registered
connection reaches the NULL dereference: the lookup yields none and
irc_push_string locks through the null pointer instead of handling it. -/
theorem push_string_null_deref :
    get_irc_server_connection initConns 0 = none
  ∧ irc_push_string initConns 0 "PING" = PushResult.nullDeref := by
  decide

/-- The look-behind cells the loop reads are unchanged by the bytes it
appends later: bufAt agrees on any extension at indices below the
current length. -/
theorem bufAt_append (j2 j1 : Byte) (acc t : List Byte) (k : Int)
    (hk2 : -2 ≤ k) (hk : k < (acc.length : Int)) :
    bufAt j2 j1 (acc ++ t) k = bufAt j2 j1 acc k := by
  unfold bufAt
  by_cases h2 : k = -2
  · simp [h2]
  · by_cases h1 : k = -1
    · simp [h2, h1]
    · have hn : k.toNat < acc.length := by omega
      simp only [if_neg h2, if_neg h1]
      exact List.getD_append _ _ _ _ hn

/-- The read loop only ever appends to its buffer. -/
theorem readLoop_extends (stream : Nat → Byte) (j2 j1 : Byte) :
    ∀ (fuel : Nat) (acc : List Byte),
      ∃ t, readLoop stream j2 j1 fuel acc = acc ++ t := by
  intro fuel
  induction fuel with
  | zero => exact fun acc => ⟨[], by simp [readLoop]⟩
  | succ n ih =>
      intro acc
      rw [readLoop]
      split
      · obtain ⟨t, ht⟩ := ih (acc ++ [stream acc.length])
        exact ⟨stream acc.length :: t, by rw [ht]; simp⟩
      · exact ⟨[], by simp⟩

/-- Full characterization of the read loop: starting from a buffer that
holds exactly the first bytes of the stream and with enough fuel, the
final buffer is the consumed prefix of the stream, its length is capped
at IRC_MESSAGE_SIZE - 1, a stop below the cap happens exactly at the
first index whose look-behind pair matches `'\r'` two back or `'\n'` one
back, and no earlier index satisfies that condition. -/
theorem readLoop_spec (stream : Nat → Byte) (j2 j1 : Byte) (fuel : Nat) :
    ∀ acc : List Byte,
      acc = (List.range acc.length).map stream →
      acc.length ≤ IRC_MESSAGE_SIZE - 1 →
      IRC_MESSAGE_SIZE - 1 ≤ fuel + acc.length →
      (readLoop stream j2 j1 fuel acc).length ≤ IRC_MESSAGE_SIZE - 1 ∧
      readLoop stream j2 j1 fuel acc =
        (List.range (readLoop stream j2 j1 fuel acc).length).map stream ∧
      ((readLoop stream j2 j1 fuel acc).length < IRC_MESSAGE_SIZE - 1 →
        stopCond j2 j1 (readLoop stream j2 j1 fuel acc)
          (readLoop stream j2 j1 fuel acc).length) ∧
      (∀ j, acc.length ≤ j → j < (readLoop stream j2 j1 fuel acc).length →
        ¬ stopCond j2 j1 (readLoop stream j2 j1 fuel acc) j) := by
  induction fuel with
  | zero =>
      intro acc hacc hlen hfuel
      simp only [readLoop]
      refine ⟨hlen, hacc, fun h => absurd h (by omega), fun j hj1 hj2 => by omega⟩
  | succ n ih =>
      intro acc hacc hlen hfuel
      rw [readLoop]
      split
      case isTrue hcond =>
        obtain ⟨hc1, hc2, hc3⟩ := hcond
        have hacc' : acc ++ [stream acc.length] =
            (List.range (acc ++ [stream acc.length]).length).map stream := by
          rw [List.length_append, List.length_singleton, List.range_succ,
            List.map_append, ← hacc]
          simp
        have h1 : (acc ++ [stream acc.length]).length ≤ IRC_MESSAGE_SIZE - 1 := by
          simp only [List.length_append, List.length_singleton]; omega
        have h2 : IRC_MESSAGE_SIZE - 1 ≤ n + (acc ++ [stream acc.length]).length := by
          simp only [List.length_append, List.length_singleton]; omega
        obtain ⟨ih1, ih2, ih3, ih4⟩ := ih (acc ++ [stream acc.length]) hacc' h1 h2
        refine ⟨ih1, ih2, ih3, ?_⟩
        intro j hj1 hj2
        rcases Nat.eq_or_lt_of_le hj1 with heq | hlt
        · obtain ⟨t, ht⟩ := readLoop_extends stream j2 j1 n (acc ++ [stream acc.length])
          intro hstop
          rw [← heq] at hstop
          have hr : readLoop stream j2 j1 n (acc ++ [stream acc.length]) =
              acc ++ ([stream acc.length] ++ t) := by
            rw [ht, List.append_assoc]
          rcases hstop with hA | hB
          · rw [hr, bufAt_append j2 j1 acc ([stream acc.length] ++ t) _
              (by omega) (by omega)] at hA
            exact hc1 hA
          · rw [hr, bufAt_append j2 j1 acc ([stream acc.length] ++ t) _
              (by omega) (by omega)] at hB
            exact hc2 hB
        · exact ih4 j (by simpa using hlt) hj2
      case isFalse hcond =>
        refine ⟨hlen, hacc, ?_, fun j hj1 hj2 => by omega⟩
        intro hlt
        by_cases hA : bufAt j2 j1 acc ((acc.length : Int) - 2) = 13
        · exact Or.inl hA
        · by_cases hB : bufAt j2 j1 acc ((acc.length : Int) - 1) = 10
          · exact Or.inr hB
          · exact absurd ⟨hA, hB, hlt⟩ hcond

/-- C2 (amended): reading one line consumes bytes one at a time and in
order from the transport; the loop stops as soon as the byte two cells
back is `'\r'` or the byte one cell back is `'\n'` (a condition implied
by having just observed `"\r\n"`, but also triggered by a lone `'\r'`
or lone `'\n'` or by the residue in the two cells before the buffer), or
once IRC_MESSAGE_SIZE - 1 = 8191 bytes have been stored; a read that
reaches that limit without a terminator still returns the truncated
count as a success, never an error. -/
theorem read_message_stop_characterization (stream : Nat → Byte) (j2 j1 : Byte) :
    (irc_read_message stream j2 j1).2 = (irc_read_message stream j2 j1).1.length
  ∧ (irc_read_message stream j2 j1).1 =
      (List.range (irc_read_message stream j2 j1).2).map stream
  ∧ (irc_read_message stream j2 j1).2 ≤ IRC_MESSAGE_SIZE - 1
  ∧ ((irc_read_message stream j2 j1).2 < IRC_MESSAGE_SIZE - 1 →
      stopCond j2 j1 (irc_read_message stream j2 j1).1
        (irc_read_message stream j2 j1).2)
  ∧ (∀ j, j < (irc_read_message stream j2 j1).2 →
      ¬ stopCond j2 j1 (irc_read_message stream j2 j1).1 j) := by
  obtain ⟨h1, h2, h3, h4⟩ := readLoop_spec stream j2 j1 (IRC_MESSAGE_SIZE - 1) []
    (by simp) (by simp) (by simp)
  exact ⟨rfl, h2, h1, h3, fun j hj => h4 j (Nat.zero_le j) hj⟩

/-- Witness for C2 (amended) at the concrete transport stream0: the stop
condition holds where the read returned, and not at index 1 inside the
consumed prefix. -/
theorem read_message_stop_characterization_witness :
    stopCond 0 0 (irc_read_message stream0 0 0).1 (irc_read_message stream0 0 0).2
  ∧ ¬ stopCond 0 0 (irc_read_message stream0 0 0).1 1 :=
  ⟨(read_message_stop_characterization stream0 0 0).2.2.2.1 (by decide),
   (read_message_stop_characterization stream0 0 0).2.2.2.2 1 (by decide)⟩

/-- C2 counterexample: on the byte stream 'a', '\n', 'b', 'b', ... the
read stops after two bytes, although the two-byte terminator "\r\n" was
never observed (no '\r' was ever read) and the size limit was not
reached - the loop also stops on a lone '\n'. -/
theorem read_message_stops_without_crlf :
    irc_read_message stream0 0 0 = ([97, 10], 2)
  ∧ hasCRLF (irc_read_message stream0 0 0).1 = false
  ∧ (irc_read_message stream0 0 0).2 < IRC_MESSAGE_SIZE - 1 := by
  decide

/-- The very first buffer cell the loop condition reads is always index
`acc.length - 2`. -/
theorem readLoopAccesses_head (stream : Nat → Byte) (j2 j1 : Byte)
    (fuel : Nat) (acc : List Byte) :
    (readLoopAccesses stream j2 j1 (fuel + 1) acc).head? =
      some ((acc.length : Int) - 2) := by
  rw [readLoopAccesses]
  split
  · rfl
  · split
    · rfl
    · split
      · rfl
      · rfl

/-- C9 (code bug): on every input byte stream the first buffer access of
irc_read_message's loop condition is `buf[-2]`, two cells before the
start of the 8192-byte buffer; concretely, the run on stream0 reads
indices -2 and -1 (never written by the function) before any in-bounds
cell. -/
theorem read_message_reads_before_buffer :
    (∀ stream j2 j1, (irc_read_message_accesses stream j2 j1).head? = some (-2))
  ∧ irc_read_message_accesses stream0 0 0 = [-2, -1, -1, 0, 0, 1]
  ∧ (-2 : Int) < 0 := by
  refine ⟨fun stream j2 j1 => ?_, by decide, by decide⟩
  unfold irc_read_message_accesses
  rw [show IRC_MESSAGE_SIZE - 1 = 8190 + 1 from rfl, readLoopAccesses_head]
  rfl

/-- The initial all-NULL array satisfies the registry invariant. -/
theorem inv_init : Inv initConns :=
  ⟨[], initConns, by simp, by simp, fun x hx => List.eq_of_mem_replicate hx,
    by simp [MAX_CONNECTIONS], by simp [initConns]⟩

/-- updateConn only rewrites occupied slots in the occupied prefix: the
NULL tail and all lengths are untouched. -/
theorem updateConn_shape (s : Nat) (f : irc_connection → irc_connection) :
    ∀ a b : Conns, (∀ x ∈ a, x.isSome = true) → (∀ x ∈ b, x = none) →
    ∃ a', updateConn (a ++ b) s f = a' ++ b ∧ a'.length = a.length ∧
      ∀ x ∈ a', x.isSome = true := by
  intro a
  induction a with
  | nil =>
      intro b _ hb
      refine ⟨[], ?_, rfl, by simp⟩
      simp only [List.nil_append]
      cases b with
      | nil => rfl
      | cons x rest =>
          have hx := hb x (List.mem_cons_self _ _)
          subst hx
          rfl
  | cons x a ih =>
      intro b ha hb
      obtain ⟨c, rfl⟩ :=
        Option.isSome_iff_exists.mp (ha x (List.mem_cons_self _ _))
      by_cases hs : c.server = s
      · refine ⟨some (f c) :: a, ?_, by simp, ?_⟩
        · simp only [List.cons_append, updateConn, if_pos hs, List.append_eq]
        · intro y hy
          rcases List.mem_cons.mp hy with hy | hy
          · subst hy; rfl
          · exact ha y (List.mem_cons_of_mem _ hy)
      · obtain ⟨a', h1, h2, h3⟩ :=
          ih b (fun y hy => ha y (List.mem_cons_of_mem _ hy)) hb
        refine ⟨some c :: a', ?_, by simp [h2], ?_⟩
        · simp only [List.cons_append, updateConn, if_neg hs, List.append_eq, h1]
        · intro y hy
          rcases List.mem_cons.mp hy with hy | hy
          · subst hy; rfl
          · exact h3 y hy

/-- updateConn preserves the registry invariant. -/
theorem inv_updateConn {cs : Conns} (s : Nat) (f : irc_connection → irc_connection)
    (h : Inv cs) : Inv (updateConn cs s f) := by
  obtain ⟨a, b, rfl, ha, hb, hlen, hsum⟩ := h
  obtain ⟨a', h1, h2, h3⟩ := updateConn_shape s f a b ha hb
  exact ⟨a', b, h1, h3, hb, by omega, by omega⟩

/-- irc_push_string preserves the registry invariant. -/
theorem inv_push {cs : Conns} (s : Nat) (str : String) (h : Inv cs) :
    Inv (pushPost cs s str) := by
  unfold pushPost irc_push_string
  cases hm : get_irc_server_connection cs s with
  | none => exact h
  | some c => exact inv_updateConn s _ h

/-- quit_irc_connection preserves the registry invariant (it never
clears a slot). -/
theorem inv_quit {cs : Conns} (serialize : irc_msg → String) (s : Nat)
    (h : Inv cs) : Inv (quitPost serialize cs s) := by
  unfold quitPost quit_irc_connection
  cases hm : get_irc_server_connection cs s with
  | none => exact h
  | some conn =>
      exact inv_updateConn s _ (inv_updateConn s _ (inv_push s _ h))

/-- Scanning a fully occupied prefix consumes all the fuel: no slot is
stored. -/
theorem placeFirst_exhausted (c : irc_connection) :
    ∀ a t : Conns, (∀ x ∈ a, x.isSome = true) →
    placeFirst c a.length (a ++ t) = none := by
  intro a
  induction a with
  | nil => intro t _; rfl
  | cons x rest ih =>
      intro t ha
      obtain ⟨y, rfl⟩ :=
        Option.isSome_iff_exists.mp (ha x (List.mem_cons_self _ _))
      simp only [List.length_cons, List.cons_append, placeFirst, List.append_eq]
      rw [ih t (fun z hz => ha z (List.mem_cons_of_mem _ hz))]
      rfl

/-- With fuel left, the scan stores the connection into the first NULL
slot, keeping everything else. -/
theorem placeFirst_hole (c : irc_connection) :
    ∀ (n : Nat) (a brest : Conns), (∀ x ∈ a, x.isSome = true) →
    a.length < n →
    placeFirst c n (a ++ none :: brest) = some (a ++ some c :: brest) := by
  intro n
  induction n with
  | zero => intro a brest _ h; omega
  | succ m ih =>
      intro a brest ha h
      cases a with
      | nil => rfl
      | cons x rest =>
          obtain ⟨y, rfl⟩ :=
            Option.isSome_iff_exists.mp (ha x (List.mem_cons_self _ _))
          simp only [List.cons_append, placeFirst, List.append_eq]
          rw [ih rest brest (fun z hz => ha z (List.mem_cons_of_mem _ hz))
            (by simp at h; omega)]
          rfl

/-- Under the invariant decomposition, the C cap test
`conns[MAX_CONNECTIONS - 1] != NULL` holds exactly when all
MAX_CONNECTIONS usable slots are occupied. -/
theorem cap_reached_iff (a b : Conns) (ha : ∀ x ∈ a, x.isSome = true)
    (hb : ∀ x ∈ b, x = none) (hlen : a.length ≤ MAX_CONNECTIONS)
    (hsum : a.length + b.length = MAX_CONNECTIONS + 1) :
    connections_cap_reached (a ++ b) = true ↔ a.length = MAX_CONNECTIONS := by
  have hm : MAX_CONNECTIONS = 10 := rfl
  unfold connections_cap_reached
  constructor
  · intro h
    by_contra hne
    have hlt : a.length ≤ MAX_CONNECTIONS - 1 := by omega
    rw [List.get?_append_right hlt] at h
    have hblen : MAX_CONNECTIONS - 1 - a.length < b.length := by omega
    rw [List.get?_eq_get hblen] at h
    rw [hb _ (List.get_mem _ _ _)] at h
    simp at h
  · intro h
    have h9 : MAX_CONNECTIONS - 1 < a.length := by omega
    rw [List.get?_append h9, List.get?_eq_get h9]
    obtain ⟨y, hy⟩ :=
      Option.isSome_iff_exists.mp (ha _ (List.get_mem _ _ _))
    rw [hy]

/-- irc_server_connect preserves the registry invariant. -/
theorem inv_connect {cs : Conns} (s : Nat) (sock : Int) (h : Inv cs) :
    Inv (connectPost cs s sock) := by
  obtain ⟨a, b, hcs, ha, hb, hlen, hsum⟩ := h
  unfold connectPost irc_server_connect
  by_cases h1 : server_connected cs s = true
  · simp only [h1, if_true]
    exact ⟨a, b, hcs, ha, hb, hlen, hsum⟩
  · simp only [Bool.not_eq_true] at h1
    simp only [h1, Bool.false_eq_true, if_false]
    by_cases h2 : connections_cap_reached cs = true
    · simp only [h2, if_true]
      exact ⟨a, b, hcs, ha, hb, hlen, hsum⟩
    · simp only [Bool.not_eq_true] at h2
      simp only [h2, Bool.false_eq_true, if_false]
      by_cases h3 : sock = -1
      · simp only [h3, if_true, if_pos rfl]
        exact ⟨a, b, hcs, ha, hb, hlen, hsum⟩
      · simp only [if_neg h3]
        have hafull : a.length ≠ MAX_CONNECTIONS := by
          intro hfull
          subst hcs
          exact (by simp [(cap_reached_iff a b ha hb hlen hsum).mpr hfull] at h2)
        have hbne : b ≠ [] := by
          intro hbnil
          rw [hbnil] at hsum
          simp at hsum
          omega
        obtain ⟨x, brest, rfl⟩ := List.exists_cons_of_ne_nil hbne
        have hx : x = none := hb x (List.mem_cons_self _ _)
        subst hx
        subst hcs
        unfold make_irc_connection_entry
        rw [placeFirst_hole _ MAX_CONNECTIONS a brest ha (by omega)]
        refine ⟨a ++ [some (create_irc_connection s sock)], brest, by simp, ?_, ?_, ?_, ?_⟩
        · intro y hy
          rcases List.mem_append.mp hy with hy | hy
          · exact ha y hy
          · simp at hy; subst hy; rfl
        · exact fun y hy => hb y (List.mem_cons_of_mem _ hy)
        · simp at hsum ⊢; omega
        · simp at hsum ⊢; omega

/-- The invariant bounds the number of occupied slots by the cap. -/
theorem inv_liveCount {cs : Conns} (h : Inv cs) :
    liveCount cs ≤ MAX_CONNECTIONS := by
  obtain ⟨a, b, rfl, ha, hb, hlen, hsum⟩ := h
  unfold liveCount
  rw [List.countP_append]
  have h1 : a.countP (fun o => o.isSome) ≤ a.length := List.countP_le_length _
  have h2 : b.countP (fun o => o.isSome) = 0 := by
    rw [List.countP_eq_zero]
    intro x hx
    rw [hb x hx]
    simp
  omega

/-- When the registry is full, the C cap test fires. -/
theorem inv_full_cap {cs : Conns} (h : Inv cs)
    (hfull : liveCount cs = MAX_CONNECTIONS) :
    connections_cap_reached cs = true := by
  obtain ⟨a, b, rfl, ha, hb, hlen, hsum⟩ := h
  have hA : a.countP (fun o => o.isSome) = a.length :=
    List.countP_eq_length.mpr (fun x hx => ha x hx)
  have hB : b.countP (fun o => o.isSome) = 0 := by
    rw [List.countP_eq_zero]
    intro x hx
    rw [hb x hx]
    simp
  have halen : a.length = MAX_CONNECTIONS := by
    unfold liveCount at hfull
    rw [List.countP_append, hA, hB] at hfull
    omega
  exact (cap_reached_iff a b ha hb hlen hsum).mpr halen

/-- Every reachable registry state satisfies the invariant. -/
theorem reachable_inv {cs : Conns} (h : Reachable cs) : Inv cs := by
  induction h with
  | init => exact inv_init
  | connect s sock _ ih => exact inv_connect s sock ih
  | quitStep serialize s _ ih => exact inv_quit serialize s ih
  | pushStep s str _ ih => exact inv_push s str ih
  | readEnq s line _ ih => exact inv_updateConn s _ ih
  | drainWrite s _ ih => exact inv_updateConn s _ ih
  | drainRead s _ ih => exact inv_updateConn s _ ih
  | startLoop s _ ih => exact inv_updateConn s _ ih

/-- C3: in every reachable state the registry holds at most
MAX_CONNECTIONS = 10 connections, and when it is full every connect
attempt - for any server and whatever irc_create_socket would have
produced - returns an error (already-connected or too-many) before
socket creation is reached, leaving the registry unchanged. -/
theorem registry_cap_invariant (cs : Conns) (h : Reachable cs) :
    liveCount cs ≤ MAX_CONNECTIONS
  ∧ (liveCount cs = MAX_CONNECTIONS →
      ∀ (s : Nat) (sock : Int),
        ((irc_server_connect cs s sock).1 = ConnectResult.errAlreadyConnected
          ∨ (irc_server_connect cs s sock).1 = ConnectResult.errTooMany)
      ∧ (irc_server_connect cs s sock).2.2 = false
      ∧ (irc_server_connect cs s sock).2.1 = cs) := by
  have hinv := reachable_inv h
  refine ⟨inv_liveCount hinv, ?_⟩
  intro hfull s sock
  have hcap := inv_full_cap hinv hfull
  by_cases h1 : server_connected cs s = true
  · have hc : irc_server_connect cs s sock =
        (ConnectResult.errAlreadyConnected, cs, false) := by
      simp [irc_server_connect, h1]
    rw [hc]
    exact ⟨Or.inl rfl, rfl, rfl⟩
  · have h1' : server_connected cs s = false := by simpa using h1
    have hc : irc_server_connect cs s sock =
        (ConnectResult.errTooMany, cs, false) := by
      simp [irc_server_connect, h1', hcap]
    rw [hc]
    exact ⟨Or.inr rfl, rfl, rfl⟩

/-- The full ten-connection registry is reachable by ten connects. -/
theorem fullConns_reachable : Reachable fullConns :=
  Reachable.connect 9 3 (Reachable.connect 8 3 (Reachable.connect 7 3
    (Reachable.connect 6 3 (Reachable.connect 5 3 (Reachable.connect 4 3
      (Reachable.connect 3 3 (Reachable.connect 2 3 (Reachable.connect 1 3
        (Reachable.connect 0 3 Reachable.init)))))))))

/-- Witness for C3 at the concrete full registry fullConns: the cap
bound holds and the eleventh connect attempt (server 99) is rejected
without reaching socket creation. -/
theorem registry_cap_invariant_witness :
    liveCount fullConns ≤ MAX_CONNECTIONS
  ∧ (((irc_server_connect fullConns 99 5).1 = ConnectResult.errAlreadyConnected
      ∨ (irc_server_connect fullConns 99 5).1 = ConnectResult.errTooMany)
    ∧ (irc_server_connect fullConns 99 5).2.2 = false
    ∧ (irc_server_connect fullConns 99 5).2.1 = fullConns) :=
  ⟨(registry_cap_invariant fullConns fullConns_reachable).1,
   (registry_cap_invariant fullConns fullConns_reachable).2 (by decide) 99 5⟩

end Circ
